import Mathlib

/-!
Verification of the go-agent-memory conversation-memory subsystem.

This file shallowly embeds the core of the repository: the three memory
modes (session-only, persistent/Supabase, hybrid Redis+PostgreSQL), their
message stores, and the routing, search, eviction and clearing logic, as
plain Lean functions over explicit state.  External collaborators (the
PostgreSQL engine, Redis, the OpenAI embedding endpoint) are modelled at
their interface boundary: SQL statements are embedded by their documented
semantics over a list of rows, Redis lists by Lean lists, and the
embedding gateway and the pgvector distance operator as function
parameters.  Machine floats (float32 scores) are modelled as rationals;
time.Time as an integer clock; Go slices that can panic return Option.
-/

/-- Go model: `Metadata` from memory.go.  The `Model`, `Temperature` and
`Extra` fields are never read by the operations under verification and are
omitted (`Temperature` is a float, `Extra` a dynamic map). -/
structure Metadata where
  sessionID : String
  userID : String
  tokenCount : Int
deriving Repr, DecidableEq

/-- Go model: `Message` from memory.go.  `Embedding []float32` is a list of
rationals, where the empty list plays the role of the absent embedding
exactly as `len(msg.Embedding) == 0` does in the source. -/
structure Message where
  id : String
  role : String
  content : String
  metadata : Metadata
  timestamp : Int
  embedding : List ℚ
deriving Repr, DecidableEq

/-- Go model: `SearchResult` from memory.go. -/
structure SearchResult where
  message : Message
  score : ℚ
  distance : ℚ
deriving Repr, DecidableEq

/-- Go model: `Stats` from memory.go, restricted to the fields the modelled
operations write or read (`OldestMessage`, `LatestMessage`, `UniqueUsers`
and `StorageSize` are never consulted by any claim). -/
structure Stats where
  sessionID : String
  totalMessages : Int
  sessionMessages : Int
  totalTokens : Int
  hasSummary : Bool
deriving Repr, DecidableEq

/-! ### Association lists

The Go source keeps per-session data in `map[string][]Message` (session-only
mode) and in per-session Redis keys (hybrid mode).  Both are modelled as
association lists.  Go map iteration order is unspecified; the model fixes
the deterministic list order. -/

/-- Find a key in an association list (Go `v, ok := m[k]` / Redis HGETALL). -/
def afind (m : List (String × α)) (k : String) : Option α :=
  match m with
  | [] => none
  | (k2, v) :: rest => if k2 = k then some v else afind rest k

/-- Lookup with a default; a missing key yields the zero value (Go map read
of an absent key, or an absent Redis list read as empty). -/
def alookup (m : List (String × α)) (k : String) (dflt : α) : α :=
  (afind m k).getD dflt

/-- Whether the key is present (Go `_, exists := m[k]`). -/
def amem (m : List (String × α)) (k : String) : Bool :=
  match m with
  | [] => false
  | (k2, _) :: rest => k2 = k || amem rest k

/-- Set a key, replacing an existing binding. -/
def aset (m : List (String × α)) (k : String) (v : α) : List (String × α) :=
  match m with
  | [] => [(k, v)]
  | (k2, w) :: rest => if k2 = k then (k2, v) :: rest else (k2, w) :: aset rest k v

/-- Delete a key (Go `delete(m, k)` / Redis `DEL`). -/
def adel (m : List (String × α)) (k : String) : List (String × α) :=
  match m with
  | [] => []
  | (k2, w) :: rest => if k2 = k then adel rest k else (k2, w) :: adel rest k

/-! ### A stable descending sort by a key

Both search paths order results by score, descending: the session-only mode
with `sort.Slice(results, func(i, j) { return results[i].Score >
results[j].Score })`, the persistent mode with SQL `ORDER BY embedding <=>
q` (ascending distance, i.e. descending score `1 - distance`).  We model
both with Mathlib insertion sort under the relation `keyRel key a b`,
meaning `key b ≤ key a`: this is a stable descending sort.  (Go sort.Slice
is unstable in general but is plain insertion sort below 12 elements, hence
stable on every concrete instance used here; the SQL tie order is
unspecified and the model fixes the stable one.) -/

/-- `keyRel key a b` : `a` may be placed before `b` in descending order. -/
def keyRel [LinearOrder β] (key : α → β) : α → α → Prop :=
  fun a b => key b ≤ key a

instance [LinearOrder β] (key : α → β) : DecidableRel (keyRel key) :=
  fun a b => inferInstanceAs (Decidable (key b ≤ key a))

instance [LinearOrder β] (key : α → β) : IsTotal α (keyRel key) :=
  ⟨fun a b => le_total (key b) (key a)⟩

instance [LinearOrder β] (key : α → β) : IsTrans α (keyRel key) :=
  ⟨fun _ _ _ h1 h2 => le_trans h2 h1⟩

/-- Sort a list in descending order of `key`, stably. -/
def sortDescBy [LinearOrder β] (key : α → β) (l : List α) : List α :=
  List.insertionSort (keyRel key) l

/-! ### Session-only memory (supabase.go, SessionOnlyMemory)

`sessions map[string][]Message` becomes an association list.  The `stats`
cache and `updateStats` are not consulted by any claim and are omitted.
Go functions that return `error` are modelled with `Option String` (the
error); Go slice expressions that can panic return `Option`. -/

/-- Go model: `SessionOnlyMemory` (supabase.go).  `config` is inlined to the
single field the methods read. -/
structure SessionOnlyMemory where
  maxSessionMessages : Int
  sessions : List (String × List Message)
deriving Repr, DecidableEq

/-- Go model: `SessionOnlyMemory.AddMessage` (supabase.go lines 467-490):
append, then trim the front once the configured limit is exceeded.  For
`0 ≤ maxSessionMessages` the drop below coincides with the Go slice
`messages[len-max:]`; a negative configured capacity would make the Go
slice expression panic, a case no theorem below relies on. -/
def sessionOnlyAddMessage (sm : SessionOnlyMemory) (msg : Message) :
    SessionOnlyMemory × Option String :=
  let sessionID := msg.metadata.sessionID
  if sessionID = "" then (sm, some "session ID is required")
  else
    let l := alookup sm.sessions sessionID [] ++ [msg]
    let l := if (l.length : Int) > sm.maxSessionMessages then
        l.drop (l.length - sm.maxSessionMessages.toNat)
      else l
    ({ sm with sessions := aset sm.sessions sessionID l }, none)

/-- Go model: `SessionOnlyMemory.GetRecentMessages` (supabase.go lines
493-512).  `none` models the Go slice-bounds panic of `messages[start:]`,
reached exactly when `limit < 0` and the session exists. -/
def sessionOnlyGetRecentMessages (sm : SessionOnlyMemory) (sessionID : String)
    (limit : Int) : Option (List Message) :=
  if amem sm.sessions sessionID = false then some []
  else
    let messages := alookup sm.sessions sessionID []
    let start : Int :=
      if (messages.length : Int) > limit then (messages.length : Int) - limit else 0
    if start > (messages.length : Int) then none
    else some (messages.drop start.toNat)

/-- Go model: `SessionOnlyMemory.ClearSession` (supabase.go lines 515-523). -/
def sessionOnlyClearSession (sm : SessionOnlyMemory) (sessionID : String) :
    SessionOnlyMemory :=
  { sm with sessions := adel sm.sessions sessionID }

/-- Go model: helper `contains` (supabase.go lines 696-699).  Go `len` is the
byte length; Lean `String.length` counts characters, which coincides on the
ASCII inputs of every concrete instance below. -/
def contains (text query : String) : Bool :=
  text.length > 0 && query.length > 0 && (text == query || text.length > query.length)

/-- Go model: helper `calculateSimpleScore` (supabase.go lines 701-710).
The float literal `0.8` is the rational `mkRat 4 5`. -/
def calculateSimpleScore (content query : String) : ℚ :=
  if content == query then 1
  else if contains content query then mkRat 4 5
  else 0

/-- All messages of all sessions in iteration order of the model (Go map
iteration order is unspecified; the model fixes association-list order). -/
def sessionOnlyAllMessages (sm : SessionOnlyMemory) : List Message :=
  sm.sessions.foldr (fun p acc => p.2 ++ acc) []

/-- The unsorted hit list built by the two nested loops of
`SessionOnlyMemory.Search` (supabase.go lines 538-551). -/
def sessionOnlySearchHits (sm : SessionOnlyMemory) (query : String)
    (threshold : ℚ) : List SearchResult :=
  (sessionOnlyAllMessages sm).filterMap (fun msg =>
    if contains msg.content query then
      let score := calculateSimpleScore msg.content query
      if threshold ≤ score then some { message := msg, score := score, distance := 0 }
      else none
    else none)

/-- Go model: `SessionOnlyMemory.Search` (supabase.go lines 531-564): collect
hits, sort by score descending (`sort.Slice` with a pure score comparator:
stable on the sub-12-element instances used here), truncate to `limit`.
`none` models the panic of `results[:limit]` for negative `limit`. -/
def sessionOnlySearch (sm : SessionOnlyMemory) (query : String) (limit : Int)
    (threshold : ℚ) : Option (List SearchResult) :=
  let results := sessionOnlySearchHits sm query threshold
  let results := sortDescBy (fun r => r.score) results
  if (results.length : Int) > limit then
    if limit < 0 then none else some (results.take limit.toNat)
  else some results

/-! ### Persistent memory (supabase.go, SupabaseMemory)

The PostgreSQL table `agent_messages` is a list of rows in arrival order;
each embedded SQL statement is modelled by its documented semantics over
that list.  The OpenAI embedding call is a function parameter
`embed : String → Option (List ℚ)` (`none` = gateway failure), and the
pgvector cosine-distance operator `<=>` a parameter
`dist : List ℚ → List ℚ → ℚ` (its numerics are external to this core). -/

/-- Row of the `agent_messages` table (schema in supabase.go lines 69-80).
`metadata` is the JSONB column; `updated_at` is written but never read and
is omitted.  An empty `embedding` models SQL NULL, as in the source where
`len(msg.Embedding) == 0` leaves the column NULL. -/
structure AgentMessageRow where
  messageId : String
  sessionId : String
  userId : String
  role : String
  content : String
  metadata : Metadata
  embedding : List ℚ
  createdAt : Int
deriving Repr, DecidableEq

/-- Row of the `agent_summaries` table (schema in supabase.go lines 93-102). -/
structure SummaryRow where
  sessionId : String
  summary : String
  messageCount : Int
  tokenCount : Int
  startTime : Int
  endTime : Int
deriving Repr, DecidableEq

/-- The two tables owned by `SupabaseMemory`. -/
structure SupabaseDb where
  agentMessages : List AgentMessageRow
  agentSummaries : List SummaryRow
deriving Repr, DecidableEq

/-- SQL model: `INSERT ... ON CONFLICT (message_id) DO UPDATE SET content,
metadata, embedding, updated_at` (supabase.go lines 129-139): the UNIQUE
key is `message_id`; on conflict only content, metadata and embedding
change (`session_id`, `role`, `created_at` keep their stored values). -/
def upsertAgentMessage (rows : List AgentMessageRow) (r : AgentMessageRow) :
    List AgentMessageRow :=
  if rows.any (fun old => old.messageId = r.messageId) then
    rows.map (fun old =>
      if old.messageId = r.messageId then
        { old with content := r.content, metadata := r.metadata, embedding := r.embedding }
      else old)
  else rows ++ [r]

/-- First step of `SupabaseMemory.AddMessage` (supabase.go lines 114-122):
attempt embedding generation when absent and content non-empty; a gateway
failure is logged and the message keeps no embedding. -/
def attachEmbedding (embed : String → Option (List ℚ)) (msg : Message) :
    Message :=
  if msg.embedding.length = 0 ∧ msg.content ≠ "" then
    match embed msg.content with
    | some e => { msg with embedding := e }
    | none => msg
  else msg

/-- The `agent_messages` row the INSERT of `AddMessage` carries
(supabase.go lines 146-155). -/
def messageRow (msg : Message) : AgentMessageRow :=
  { messageId := msg.id, sessionId := msg.metadata.sessionID,
    userId := msg.metadata.userID, role := msg.role, content := msg.content,
    metadata := msg.metadata, embedding := msg.embedding,
    createdAt := msg.timestamp }

/-- Go model: `SupabaseMemory.AddMessage` (supabase.go lines 112-158). -/
def supabaseAddMessage (embed : String → Option (List ℚ)) (db : SupabaseDb)
    (msg : Message) : SupabaseDb :=
  { db with agentMessages :=
      upsertAgentMessage db.agentMessages (messageRow (attachEmbedding embed msg)) }

/-- Row-to-Message scan of the two read queries (supabase.go lines 182-208,
266-294): the SELECT omits the embedding, and the unmarshalled metadata
JSON overwrites the separately scanned `session_id` and `user_id` columns
(the marshalled JSON always carries `session_id`, so it always wins). -/
def rowToMessage (r : AgentMessageRow) : Message :=
  { id := r.messageId, role := r.role, content := r.content,
    metadata := r.metadata, timestamp := r.createdAt, embedding := [] }

/-- Go model: `SupabaseMemory.GetRecentMessages` (supabase.go lines
161-218): default the limit, `SELECT ... WHERE session_id = $1 ORDER BY
created_at DESC LIMIT $2`, then reverse into chronological order.  SQL
leaves the order of equal timestamps unspecified; the model fixes the
stable one. -/
def supabaseGetRecentMessages (db : SupabaseDb) (sessionID : String)
    (limit : Int) : List Message :=
  let limit := if limit ≤ 0 then 50 else limit
  let rows := db.agentMessages.filter (fun r => r.sessionId = sessionID)
  let rows := sortDescBy (fun r => r.createdAt) rows
  let rows := rows.take limit.toNat
  (rows.map rowToMessage).reverse

/-- Go model: `SupabaseMemory.SearchWithEmbedding` (supabase.go lines
238-298): default limit and threshold, keep rows with a non-NULL embedding
and `1 - (embedding <=> q) > $2` (strict), order by ascending distance
(equivalently descending score), truncate, and scan. -/
def supabaseSearchWithEmbedding (dist : List ℚ → List ℚ → ℚ) (db : SupabaseDb)
    (embedding : List ℚ) (limit : Int) (threshold : ℚ) : List SearchResult :=
  let limit := if limit ≤ 0 then 10 else limit
  let threshold := if threshold ≤ 0 then mkRat 7 10 else threshold
  let rows := db.agentMessages.filter (fun r => !r.embedding.isEmpty)
  let rows := rows.filter (fun r => threshold < 1 - dist r.embedding embedding)
  let rows := sortDescBy (fun r => 1 - dist r.embedding embedding) rows
  let rows := rows.take limit.toNat
  rows.map (fun r =>
    { message := rowToMessage r, score := 1 - dist r.embedding embedding,
      distance := dist r.embedding embedding })

/-- Go model: `SupabaseMemory.ClearSession` (supabase.go lines 301-304):
`DELETE FROM agent_messages WHERE session_id = $1`. -/
def supabaseClearSession (db : SupabaseDb) (sessionID : String) : SupabaseDb :=
  { db with agentMessages := db.agentMessages.filter (fun r => !(r.sessionId = sessionID : Bool)) }

/-- Go model: `SupabaseMemory.GetStats` (supabase.go lines 371-395): the
aggregate query scans `COUNT(*)` into TotalMessages and `COUNT(DISTINCT
session_id)` into SessionMessages; `HasSummary` and `TotalTokens` are never
scanned and keep their Go zero values. -/
def supabaseGetStats (db : SupabaseDb) (sessionID : String) : Stats :=
  let rows := db.agentMessages.filter
    (fun r => (sessionID = "" : Bool) || (r.sessionId = sessionID : Bool))
  { sessionID := sessionID,
    totalMessages := rows.length,
    sessionMessages := ((rows.map (fun r => r.sessionId)).eraseDups).length,
    totalTokens := 0,
    hasSummary := false }

/-! ### Hybrid memory (HybridMemory, Redis + Supabase)

Redis per-session lists (`session:{id}:messages`, newest first) are
association lists of `List Message`; the `session:{id}:meta` hashes keep the
two counters `GetStats` reads back.  The two backends can each be up or
down; an operation against a down backend returns a Redis/PostgreSQL error,
which the model routes exactly as the source does.  The fire-and-forget
cache repopulation goroutine is modelled as applied sequentially before the
call returns (single-threaded semantics). -/

/-- The `message_count` and `total_tokens` fields of the per-session Redis
meta hash (the `last_message_*` fields set by `HSet` are never read back
and are omitted). -/
structure HybridMeta where
  messageCount : Int
  totalTokens : Int
deriving Repr, DecidableEq

/-- Go model: `HybridMemory` (tests/memory_test.go hybrid part, lines
248-253) together with the observable state of its two backends.
`supabaseOk` / `redisOk` model whether the durable tier / cache tier are
reachable; `sessionTTL` only feeds `EXPIRE` calls and is omitted. -/
structure HybridMemory where
  supabaseOk : Bool
  redisOk : Bool
  db : SupabaseDb
  cache : List (String × List Message)
  meta : List (String × HybridMeta)
  maxSessionMessages : Int
deriving Repr, DecidableEq

/-- Redis model: the element range `[0, stop]` of a list, with the Redis
negative-index convention (`stop = -1` is the last element, so `LRANGE key
0 -1` and `LTRIM key 0 -1` cover the whole list). -/
def lrange0 (l : List α) (stop : Int) : List α :=
  let stop := if stop < 0 then (l.length : Int) + stop else stop
  if stop < 0 then [] else l.take (stop.toNat + 1)

/-- Go model: `HybridMemory.AddMessage` (hybrid part, lines 298-342): the
durable write comes first but its failure is only logged; then `LPUSH`
(whose failure is returned), `LTRIM 0 maxSessionMessages-1`, and the meta
counters.  JSON serialisation of a `Message` cannot fail and is elided. -/
def hybridAddMessage (embed : String → Option (List ℚ)) (hm : HybridMemory)
    (msg : Message) : HybridMemory × Option String :=
  let hm :=
    if hm.supabaseOk then { hm with db := supabaseAddMessage embed hm.db msg }
    else hm
  let sessionKey := msg.metadata.sessionID
  if hm.redisOk = false then (hm, some "failed to add message to Redis")
  else
    let lst := msg :: alookup hm.cache sessionKey []
    let lst := lrange0 lst (hm.maxSessionMessages - 1)
    let m := alookup hm.meta sessionKey { messageCount := 0, totalTokens := 0 }
    let m : HybridMeta :=
      { messageCount := m.messageCount + 1,
        totalTokens := m.totalTokens + msg.metadata.tokenCount }
    ({ hm with cache := aset hm.cache sessionKey lst,
               meta := aset hm.meta sessionKey m }, none)

/-- Go model: `repopulateRedisCache` (hybrid part, lines 383-400): clear the
key, then `LPUSH` each message iterating the slice from its last element
down to its first.  Each push prepends, so the resulting Redis list is the
input in its original (chronological) order — not newest-first as the
write path produces. -/
def repopulateRedisCache (messages : List Message) : List Message :=
  messages.reverse.foldl (fun acc m => m :: acc) []

/-- Go model: `HybridMemory.GetRecentMessages` (hybrid part, lines 345-380):
default the limit to the cache capacity, try `LRANGE` and return the
reversed (chronological) hit; otherwise fall back to the durable tier,
returning its error if it fails too, and repopulate the cache. -/
def hybridGetRecentMessages (hm : HybridMemory) (sessionID : String)
    (limit : Int) : Except String (List Message) × HybridMemory :=
  let limit := if limit ≤ 0 then hm.maxSessionMessages else limit
  let results :=
    if hm.redisOk then lrange0 (alookup hm.cache sessionID []) (limit - 1)
    else []
  if results.length > 0 then (.ok results.reverse, hm)
  else if hm.supabaseOk then
    let messages := supabaseGetRecentMessages hm.db sessionID limit
    let newCache :=
      if hm.redisOk then aset hm.cache sessionID (repopulateRedisCache messages)
      else hm.cache
    (.ok messages, { hm with cache := newCache })
  else (.error "failed to read recent messages from the database", hm)

/-- Go model: `HybridMemory.ClearSession` (hybrid part, lines 403-412): the
Redis `DEL` of the session keys comes first and its result is discarded;
then the durable delete, whose error (and only it) is returned. -/
def hybridClearSession (hm : HybridMemory) (sessionID : String) :
    HybridMemory × Option String :=
  let hm :=
    if hm.redisOk then
      { hm with cache := adel hm.cache sessionID, meta := adel hm.meta sessionID }
    else hm
  if hm.supabaseOk then
    ({ hm with db := supabaseClearSession hm.db sessionID }, none)
  else (hm, some "failed to delete session rows")

/-- Go model: `HybridMemory.GetStats` (hybrid part, lines 456-485): durable
stats first (its failure is returned), then for a named session the Redis
meta hash may raise `SessionMessages` and overwrite `TotalTokens`; when
Redis is down or the hash is absent, `HGetAll` yields no fields and both
updates are skipped.  `HasSummary` is untouched everywhere. -/
def hybridGetStats (hm : HybridMemory) (sessionID : String) :
    Except String Stats :=
  if hm.supabaseOk = false then .error "failed to query stats"
  else
    let stats := supabaseGetStats hm.db sessionID
    if sessionID = "" then .ok stats
    else
      match (if hm.redisOk then afind hm.meta sessionID else none) with
      | none => .ok stats
      | some m =>
        let stats :=
          if m.messageCount > stats.sessionMessages then
            { stats with sessionMessages := m.messageCount }
          else stats
        .ok { stats with totalTokens := m.totalTokens }

/-! ### Properties of the stable descending sort -/

/-- Inserting an element that dominates every key lands at the front. -/
theorem orderedInsert_of_forall_le [LinearOrder β] (key : α → β) (x : α)
    (S : List α) (h : ∀ z ∈ S, key z ≤ key x) :
    List.orderedInsert (keyRel key) x S = x :: S := by
  cases S with
  | nil => rfl
  | cons z rest =>
    have hz : keyRel key x z := h z (by simp)
    rw [List.orderedInsert, if_pos hz]

/-- Filtering by a predicate that is upward closed along the key commutes
with ordered insertion into a sorted list. -/
theorem filter_orderedInsert [LinearOrder β] (key : α → β) (p : α → Bool)
    (hp : ∀ a b, key b ≤ key a → p b = true → p a = true)
    (x : α) (S : List α) (hs : List.Pairwise (keyRel key) S) :
    (List.orderedInsert (keyRel key) x S).filter p =
      if p x then List.orderedInsert (keyRel key) x (S.filter p)
      else S.filter p := by
  induction S with
  | nil =>
    cases hpx : p x <;> simp [List.orderedInsert, List.filter, hpx]
  | cons y ys ih =>
    have hys : List.Pairwise (keyRel key) ys := hs.of_cons
    have hy : ∀ z ∈ ys, keyRel key y z := fun z hz =>
      List.rel_of_pairwise_cons hs hz
    by_cases hxy : keyRel key x y
    · rw [List.orderedInsert, if_pos hxy]
      cases hpx : p x with
      | true =>
        cases hpy : p y with
        | true => simp [List.filter_cons, hpx, hpy, List.orderedInsert, hxy]
        | false =>
          have hall : ∀ z ∈ List.filter p ys, key z ≤ key x := fun z hz =>
            le_trans (hy z (List.mem_of_mem_filter hz)) hxy
          simp [List.filter_cons, hpx, hpy,
            orderedInsert_of_forall_le key x _ hall]
      | false => simp [List.filter_cons, hpx]
    · rw [List.orderedInsert, if_neg hxy]
      have hxyle : key x ≤ key y := le_of_not_le hxy
      cases hpx : p x with
      | true =>
        have hpy : p y = true := hp y x hxyle hpx
        simp [List.filter_cons, hpx, hpy, ih hys, List.orderedInsert, hxy]
      | false =>
        cases hpy : p y with
        | true => simp [List.filter_cons, hpx, hpy, ih hys]
        | false => simp [List.filter_cons, hpx, hpy, ih hys]

/-- The stable descending sort commutes with filtering by a predicate that
is upward closed along the key. -/
theorem filter_sortDescBy [LinearOrder β] (key : α → β) (p : α → Bool)
    (hp : ∀ a b, key b ≤ key a → p b = true → p a = true) (l : List α) :
    (sortDescBy key l).filter p = sortDescBy key (l.filter p) := by
  induction l with
  | nil => rfl
  | cons x xs ih =>
    have hsorted : List.Pairwise (keyRel key) (sortDescBy key xs) :=
      List.sorted_insertionSort (keyRel key) xs
    have step : sortDescBy key (x :: xs) =
        List.orderedInsert (keyRel key) x (sortDescBy key xs) := rfl
    rw [step, filter_orderedInsert key p hp x _ hsorted, ih]
    cases hpx : p x with
    | true =>
      have hstep2 : sortDescBy key (x :: List.filter p xs) =
          List.orderedInsert (keyRel key) x (sortDescBy key (List.filter p xs)) := rfl
      simp [List.filter_cons, hpx, hstep2]
    | false => simp [List.filter_cons, hpx]

/-- On a descending-sorted list, filtering by an upward-closed predicate
keeps an initial segment. -/
theorem filter_eq_take_of_sorted [LinearOrder β] (key : α → β) (p : α → Bool)
    (hp : ∀ a b, key b ≤ key a → p b = true → p a = true)
    (S : List α) (hs : List.Pairwise (keyRel key) S) :
    ∃ m, S.filter p = S.take m := by
  induction S with
  | nil => exact ⟨0, rfl⟩
  | cons x xs ih =>
    cases hpx : p x with
    | true =>
      obtain ⟨m, hm⟩ := ih hs.of_cons
      exact ⟨m + 1, by simp [List.filter_cons, hpx, hm]⟩
    | false =>
      refine ⟨0, ?_⟩
      have hnone : ∀ z ∈ xs, ¬ p z = true := by
        intro z hz hpz
        have hzx : key z ≤ key x := List.rel_of_pairwise_cons hs hz
        rw [hp x z hzx hpz] at hpx
        exact Bool.true_eq_false.mp hpx
      simp [List.filter_cons, hpx, List.filter_eq_nil_iff.mpr hnone]

/-- Filtering with a stronger predicate factors through the weaker one. -/
theorem filter_filter_of_imp (p q : α → Bool)
    (h : ∀ a, p a = true → q a = true) (l : List α) :
    l.filter p = (l.filter q).filter p := by
  induction l with
  | nil => rfl
  | cons x xs ih =>
    cases hpx : p x with
    | true =>
      have hqx : q x = true := h x hpx
      simp [List.filter_cons, hpx, hqx, ih]
    | false =>
      cases hqx : q x with
      | true => simp [List.filter_cons, hpx, hqx, ih]
      | false => simp [List.filter_cons, hpx, hqx, ih]

/-! ### Iterated writes -/

/-- Fold `SessionOnlyMemory.AddMessage` over a batch of messages (each step
keeps the state of the Go call; per-message errors do not abort a batch). -/
def sessionOnlyAddAll (sm : SessionOnlyMemory) (msgs : List Message) :
    SessionOnlyMemory :=
  msgs.foldl (fun s m => (sessionOnlyAddMessage s m).1) sm

/-- Fold `HybridMemory.AddMessage` over a batch of messages. -/
def hybridAddAll (embed : String → Option (List ℚ)) (hm : HybridMemory)
    (msgs : List Message) : HybridMemory :=
  msgs.foldl (fun s m => (hybridAddMessage embed s m).1) hm

/-! ### Claim C1 -/

/-- Scenario for C1: one message, a hybrid store whose durable tier is
down but whose cache tier is up, and the mirror-image store. -/
def c1Msg : Message :=
  { id := "m1", role := "user", content := "hello",
    metadata := { sessionID := "s1", userID := "", tokenCount := 1 },
    timestamp := 1, embedding := [] }

/-- Hybrid store with the durable tier unreachable and the cache tier up. -/
def c1DbDown : HybridMemory :=
  { supabaseOk := false, redisOk := true,
    db := { agentMessages := [], agentSummaries := [] },
    cache := [], meta := [], maxSessionMessages := 50 }

/-- Hybrid store with the durable tier up and the cache tier unreachable. -/
def c1RedisDown : HybridMemory :=
  { c1DbDown with supabaseOk := true, redisOk := false }

/-- C1: the claim says a durable-tier (PostgreSQL) write failure makes
hybrid `AddMessage` return an error while a cache-only failure does not.
The code does the exact opposite: with the durable tier down and the cache
up, `AddMessage` returns no error although the message was never persisted
(the failure is only logged, hybrid part lines 300-303); with the durable
tier up and the cache down, the durably persisted write nevertheless
returns an error (line 315-317).  This theorem evaluates the code at both
failing inputs. -/
theorem C1_hybrid_addMessage_inverts_error_policy :
    ((hybridAddMessage (fun _ => none) c1DbDown c1Msg).2 = none ∧
      (hybridAddMessage (fun _ => none) c1DbDown c1Msg).1.db.agentMessages = []) ∧
    ((hybridAddMessage (fun _ => none) c1RedisDown c1Msg).2.isSome = true ∧
      (hybridAddMessage (fun _ => none) c1RedisDown c1Msg).1.db.agentMessages ≠ []) := by
  decide

/-! ### Claim C2 -/

/-- The i-th of the 12 alternating-role messages of the compaction
scenario (distinct ids, one session). -/
def c2Msg (i : Nat) : Message :=
  { id := String.mk (List.replicate (i + 1) 'x'),
    role := if i % 2 = 0 then "user" else "assistant",
    content := "m",
    metadata := { sessionID := "s2", userID := "", tokenCount := 1 },
    timestamp := (i : Int), embedding := [] }

/-- The 12 alternating-role messages of the compaction scenario. -/
def c2Msgs : List Message := (List.range 12).map c2Msg

/-- A fresh hybrid store with both tiers up. -/
def c2State : HybridMemory :=
  { supabaseOk := true, redisOk := true,
    db := { agentMessages := [], agentSummaries := [] },
    cache := [], meta := [], maxSessionMessages := 50 }

/-- C2: the claim (and spec) say that with `summarizeThreshold = 10`,
adding 12 alternating-role messages durably triggers compaction: stats
report `HasSummary == true` and a summary with `messageCount == 10` is
stored.  The code has no such trigger: `HybridMemory.AddMessage` never
consults `SummarizeThreshold` (the `HybridMemory` struct does not even
retain it — hybrid part lines 248-253, 289-294), never calls `Summarize`,
and `GetStats` never sets `HasSummary` (supabase.go lines 371-394 scan
only counts; the Go zero value `false` remains).  After the full scenario
the stats still say `HasSummary = false` and the summaries table is empty. -/
theorem C2_threshold_never_triggers_compaction :
    ((hybridGetStats (hybridAddAll (fun _ => none) c2State c2Msgs) "s2").toOption.map
        Stats.hasSummary) = some false ∧
    (hybridAddAll (fun _ => none) c2State c2Msgs).db.agentSummaries = [] := by
  decide

/-! ### Claim C3 -/

/-- First write of the duplicate-id scenario. -/
def c3Msg1 : Message :=
  { id := "m1", role := "user", content := "first content",
    metadata := { sessionID := "s3", userID := "", tokenCount := 1 },
    timestamp := 1, embedding := [] }

/-- Second write: same id, different content. -/
def c3Msg2 : Message :=
  { c3Msg1 with content := "second content", timestamp := 2 }

/-- A fresh session-only store. -/
def c3State : SessionOnlyMemory :=
  { maxSessionMessages := 50, sessions := [] }

/-- C3 counterexample: the claim says re-adding an existing id upserts in
every memory mode.  In session-only mode `AddMessage` appends
unconditionally (supabase.go line 477), so adding the same id twice leaves
two stored messages, the first still carrying the old content. -/
theorem C3_counterexample_sessionOnly_duplicates_id :
    c3Msg1.id = c3Msg2.id ∧ c3Msg1.content ≠ c3Msg2.content ∧
    ((alookup ((sessionOnlyAddMessage
        (sessionOnlyAddMessage c3State c3Msg1).1 c3Msg2).1.sessions) "s3" []).filter
      (fun m => m.id == "m1")).length = 2 := by
  decide

/-- Embedding attachment touches only the embedding field. -/
theorem attachEmbedding_fields (embed : String → Option (List ℚ))
    (msg : Message) :
    (attachEmbedding embed msg).id = msg.id ∧
    (attachEmbedding embed msg).content = msg.content ∧
    (attachEmbedding embed msg).metadata = msg.metadata := by
  unfold attachEmbedding
  split
  · cases embed msg.content <;> simp
  · simp

/-- The conflict-branch update keeps the unique key. -/
theorem upsert_update_keeps_id (r old : AgentMessageRow) :
    ((if old.messageId = r.messageId then
      { old with content := r.content, metadata := r.metadata,
                 embedding := r.embedding }
      else old) : AgentMessageRow).messageId = old.messageId := by
  split <;> rfl

/-- Upserting into a table holding at most one row with the key leaves
exactly one row with the key. -/
theorem upsertAgentMessage_count (rows : List AgentMessageRow)
    (r : AgentMessageRow)
    (h : (rows.filter (fun x => x.messageId == r.messageId)).length ≤ 1) :
    ((upsertAgentMessage rows r).filter
      (fun x => x.messageId == r.messageId)).length = 1 := by
  unfold upsertAgentMessage
  by_cases hany : rows.any (fun old => old.messageId = r.messageId)
  · rw [if_pos hany, List.filter_map]
    have hcomp : ((fun (x : AgentMessageRow) => x.messageId == r.messageId) ∘
        (fun (old : AgentMessageRow) => if old.messageId = r.messageId then
          { old with content := r.content, metadata := r.metadata,
                     embedding := r.embedding }
          else old)) = (fun (x : AgentMessageRow) => x.messageId == r.messageId) := by
      funext old
      simp only [Function.comp_apply]
      rw [upsert_update_keeps_id]
    rw [hcomp, List.length_map]
    obtain ⟨old, hold, holdid⟩ := List.any_eq_true.mp hany
    have hmem : old ∈ rows.filter (fun x => x.messageId == r.messageId) := by
      rw [List.mem_filter]
      exact ⟨hold, by simpa using holdid⟩
    have : 0 < (rows.filter (fun x => x.messageId == r.messageId)).length :=
      List.length_pos.mpr (List.ne_nil_of_mem hmem)
    omega
  · rw [if_neg hany, List.filter_append]
    have hnil : rows.filter (fun x => x.messageId == r.messageId) = [] := by
      rw [List.filter_eq_nil_iff]
      intro x hx hpx
      exact (List.any_eq_true.not.mp hany)
        ⟨x, hx, by simpa using hpx⟩
    rw [hnil]
    simp

/-- After an upsert, every row carrying the key has the new content. -/
theorem upsertAgentMessage_content (rows : List AgentMessageRow)
    (r x : AgentMessageRow) (hx : x ∈ upsertAgentMessage rows r)
    (hid : x.messageId = r.messageId) : x.content = r.content := by
  unfold upsertAgentMessage at hx
  by_cases hany : rows.any (fun old => old.messageId = r.messageId)
  · rw [if_pos hany] at hx
    obtain ⟨old, _, hold⟩ := List.mem_map.mp hx
    by_cases hoid : old.messageId = r.messageId
    · rw [if_pos hoid] at hold
      rw [← hold]
    · rw [if_neg hoid] at hold
      rw [← hold] at hid
      exact absurd hid hoid
  · rw [if_neg hany] at hx
    rcases List.mem_append.mp hx with hmem | hmem
    · exact absurd ⟨x, hmem, by simpa using hid⟩ (List.any_eq_true.not.mp hany)
    · rw [List.mem_singleton.mp hmem]

/-- C3 amended: `AddMessage` called twice with the same id and different
content leaves exactly one stored row with that id, carrying the latest
content, in the persistent (durable) mode; in session-only mode the claim
fails (see the counterexample): both copies are retained. -/
theorem C3_supabase_addMessage_upserts (embed : String → Option (List ℚ))
    (db : SupabaseDb) (m1 m2 : Message) (hid : m2.id = m1.id)
    (_hdiff : m1.content ≠ m2.content)
    (hwf : (db.agentMessages.filter (fun x => x.messageId == m1.id)).length ≤ 1) :
    ((supabaseAddMessage embed (supabaseAddMessage embed db m1) m2).agentMessages.filter
      (fun x => x.messageId == m1.id)).map (fun x => x.content) = [m2.content] := by
  have hr1 : (messageRow (attachEmbedding embed m1)).messageId = m1.id :=
    (attachEmbedding_fields embed m1).1
  have hr2 : (messageRow (attachEmbedding embed m2)).messageId = m1.id := by
    rw [show (messageRow (attachEmbedding embed m2)).messageId =
      (attachEmbedding embed m2).id from rfl, (attachEmbedding_fields embed m2).1, hid]
  have hr2c : (messageRow (attachEmbedding embed m2)).content = m2.content :=
    (attachEmbedding_fields embed m2).2.1
  have hrows1 : (supabaseAddMessage embed db m1).agentMessages =
      upsertAgentMessage db.agentMessages (messageRow (attachEmbedding embed m1)) := rfl
  have hcount1 : (((supabaseAddMessage embed db m1).agentMessages).filter
      (fun x => x.messageId == m1.id)).length = 1 := by
    rw [hrows1, ← hr1]
    exact upsertAgentMessage_count _ _ (by rw [hr1]; exact hwf)
  have hrows2 : (supabaseAddMessage embed (supabaseAddMessage embed db m1) m2).agentMessages =
      upsertAgentMessage (supabaseAddMessage embed db m1).agentMessages
        (messageRow (attachEmbedding embed m2)) := rfl
  have hcount2 : ((supabaseAddMessage embed (supabaseAddMessage embed db m1) m2).agentMessages.filter
      (fun x => x.messageId == m1.id)).length = 1 := by
    rw [hrows2, ← hr2]
    exact upsertAgentMessage_count _ _ (by rw [hr2]; exact le_of_eq hcount1)
  obtain ⟨x, hx⟩ := List.length_eq_one.mp hcount2
  rw [hx]
  have hxmem : x ∈ (supabaseAddMessage embed (supabaseAddMessage embed db m1) m2).agentMessages ∧
      (x.messageId == m1.id) = true := by
    have : x ∈ (supabaseAddMessage embed (supabaseAddMessage embed db m1) m2).agentMessages.filter
        (fun x => x.messageId == m1.id) := by rw [hx]; exact List.mem_singleton_self x
    exact List.mem_filter.mp this
  have hxc : x.content = m2.content := by
    rw [← hr2c]
    refine upsertAgentMessage_content _ _ x (by rw [← hrows2]; exact hxmem.1) ?_
    rw [hr2]
    exact of_decide_eq_true hxmem.2
  rw [List.map_singleton, hxc]

/-- Witness for C3 amended at the concrete duplicate-id scenario. -/
theorem C3_supabase_addMessage_upserts_witness :
    ((supabaseAddMessage (fun _ => none)
        (supabaseAddMessage (fun _ => none)
          { agentMessages := [], agentSummaries := [] } c3Msg1)
        c3Msg2).agentMessages.filter
      (fun x => x.messageId == c3Msg1.id)).map (fun x => x.content) = [c3Msg2.content] :=
  C3_supabase_addMessage_upserts (fun _ => none)
    { agentMessages := [], agentSummaries := [] } c3Msg1 c3Msg2
    (by decide) (by decide) (by decide)

/-! ### Claim C9 -/

/-- Deleting a key makes it unfindable. -/
theorem afind_adel (m : List (String × α)) (k : String) :
    afind (adel m k) k = none := by
  induction m with
  | nil => rfl
  | cons p rest ih =>
    obtain ⟨k2, v⟩ := p
    by_cases h : k2 = k
    · simpa [adel, h] using ih
    · simp [adel, afind, h, ih]

/-- After the durable session delete, no row of the session remains. -/
theorem filter_supabaseClearSession (db : SupabaseDb) (sid : String) :
    (supabaseClearSession db sid).agentMessages.filter
      (fun r => r.sessionId == sid) = [] := by
  rw [List.filter_eq_nil_iff]
  intro x hx
  have hmem : x ∈ db.agentMessages.filter
      (fun r => !(r.sessionId = sid : Bool)) := hx
  have hne := List.of_mem_filter hmem
  simp only [Bool.not_eq_true', decide_eq_false_iff_not] at hne
  simp [hne]

/-- C9: `ClearSession` issues the cache-tier delete first (its result is
discarded), then the durable delete; the call errors exactly when the
durable delete fails, and an already-cleared cache does not mask that
error.  Confirmed: the four conjuncts state (i) error iff the durable tier
failed, (ii) the cache entry is gone whenever the cache tier was up — also
in the durable-failure case, because the cache delete happened first,
(iii) on success no durable row of the session remains, (iv) on durable
failure the durable rows are untouched. -/
theorem C9_hybrid_clearSession_durable_authoritative
    (hm : HybridMemory) (sid : String) :
    ((hybridClearSession hm sid).2 = none ↔ hm.supabaseOk = true) ∧
    (hm.redisOk = true → alookup (hybridClearSession hm sid).1.cache sid [] = []) ∧
    (hm.supabaseOk = true →
      (hybridClearSession hm sid).1.db.agentMessages.filter
        (fun r => r.sessionId == sid) = []) ∧
    (hm.supabaseOk = false → (hybridClearSession hm sid).1.db = hm.db) := by
  unfold hybridClearSession
  cases hr : hm.redisOk <;> cases hs : hm.supabaseOk <;>
    simp [hr, hs, alookup, afind_adel, filter_supabaseClearSession]

/-- The durable row of the C9 witness store. -/
def c9Row : AgentMessageRow :=
  { messageId := "m9", sessionId := "s9", userId := "", role := "user",
    content := "c", metadata := { sessionID := "s9", userID := "", tokenCount := 1 },
    embedding := [], createdAt := 1 }

/-- The cached message of the C9 witness store. -/
def c9Cached : Message :=
  { id := "m9", role := "user", content := "c",
    metadata := { sessionID := "s9", userID := "", tokenCount := 1 },
    timestamp := 1, embedding := [] }

/-- A populated two-tier store for the C9 witness. -/
def c9State : HybridMemory :=
  { supabaseOk := true, redisOk := true,
    db := { agentMessages := [c9Row], agentSummaries := [] },
    cache := [("s9", [c9Cached])],
    meta := [("s9", { messageCount := 1, totalTokens := 1 })],
    maxSessionMessages := 50 }

/-- Witness for C9 at a concrete populated store. -/
theorem C9_hybrid_clearSession_durable_authoritative_witness :
    ((hybridClearSession c9State "s9").2 = none ↔ c9State.supabaseOk = true) ∧
    (c9State.redisOk = true →
      alookup (hybridClearSession c9State "s9").1.cache "s9" [] = []) ∧
    (c9State.supabaseOk = true →
      (hybridClearSession c9State "s9").1.db.agentMessages.filter
        (fun r => r.sessionId == "s9") = []) ∧
    (c9State.supabaseOk = false → (hybridClearSession c9State "s9").1.db = c9State.db) :=
  C9_hybrid_clearSession_durable_authoritative c9State "s9"

/-! ### Claim C8 -/

/-- The last `n` elements of a list. -/
def lastN (n : Nat) (l : List α) : List α := l.drop (l.length - n)

/-- The append-then-trim of the session-only write is exactly keeping the
last `maxSessionMessages` elements. -/
theorem trim_eq_lastN (max : Int) (h : 0 ≤ max) (l : List Message) :
    (if (l.length : Int) > max then l.drop (l.length - max.toNat) else l) =
      lastN max.toNat l := by
  unfold lastN
  split
  · rfl
  · next hle =>
    have hz : l.length - max.toNat = 0 := by omega
    rw [hz, List.drop_zero]

/-- `lastN` keeps at most `n` elements. -/
theorem lastN_length_le (n : Nat) (l : List α) : (lastN n l).length ≤ n := by
  unfold lastN
  rw [List.length_drop]
  omega

/-- Keeping the last `n` absorbs over later appends. -/
theorem lastN_append (n : Nat) (l ms : List α) :
    lastN n (lastN n l ++ ms) = lastN n (l ++ ms) := by
  unfold lastN
  rw [← List.drop_append_of_le_length (by omega : l.length - n ≤ l.length),
    List.drop_drop]
  congr 1
  simp only [List.length_append, List.length_drop]
  omega

/-- A just-set key is found with its new value. -/
theorem afind_aset_self (m : List (String × α)) (k : String) (v : α) :
    afind (aset m k v) k = some v := by
  induction m with
  | nil => simp [aset, afind]
  | cons p rest ih =>
    obtain ⟨k2, w⟩ := p
    by_cases h : k2 = k <;> simp [aset, afind, h, ih]

/-- One session-only write, seen on the session under its own key. -/
theorem sessionOnlyAddMessage_state (sm : SessionOnlyMemory) (m : Message)
    (sid : String) (hsid : ¬ sid = "") (hm : m.metadata.sessionID = sid)
    (h0 : 0 ≤ sm.maxSessionMessages) :
    (sessionOnlyAddMessage sm m).1.sessions =
      aset sm.sessions sid
        (lastN sm.maxSessionMessages.toNat (alookup sm.sessions sid [] ++ [m])) ∧
    (sessionOnlyAddMessage sm m).1.maxSessionMessages = sm.maxSessionMessages := by
  unfold sessionOnlyAddMessage
  simp only [hm, if_neg hsid]
  rw [trim_eq_lastN _ h0]
  exact ⟨rfl, trivial⟩

/-- Folding session-only writes of one session accumulates the last
`maxSessionMessages` of the written sequence. -/
theorem sessionOnlyAddAll_lookup (sid : String) (hsid : ¬ sid = "")
    (msgs : List Message) (hmsgs : ∀ m ∈ msgs, m.metadata.sessionID = sid) :
    ∀ sm : SessionOnlyMemory, 0 ≤ sm.maxSessionMessages →
      (alookup sm.sessions sid []).length ≤ sm.maxSessionMessages.toNat →
      alookup (sessionOnlyAddAll sm msgs).sessions sid [] =
        lastN sm.maxSessionMessages.toNat (alookup sm.sessions sid [] ++ msgs) := by
  induction msgs with
  | nil =>
    intro sm _ hlen
    show alookup sm.sessions sid [] = _
    rw [List.append_nil]
    unfold lastN
    have hz : (alookup sm.sessions sid []).length - sm.maxSessionMessages.toNat = 0 := by
      omega
    rw [hz, List.drop_zero]
  | cons m ms ih =>
    intro sm h0 hlen
    have hm : m.metadata.sessionID = sid := hmsgs m (by simp)
    obtain ⟨hsess, hmax⟩ := sessionOnlyAddMessage_state sm m sid hsid hm h0
    have hstep : sessionOnlyAddAll sm (m :: ms) =
        sessionOnlyAddAll (sessionOnlyAddMessage sm m).1 ms := rfl
    rw [hstep]
    rw [ih (fun x hx => hmsgs x (List.mem_cons_of_mem m hx))
        (sessionOnlyAddMessage sm m).1
        (by rw [hmax]; exact h0)
        (by
          rw [hmax, hsess]
          simp only [alookup, afind_aset_self, Option.getD_some]
          exact lastN_length_le _ _)]
    rw [hmax, hsess]
    simp only [alookup, afind_aset_self, Option.getD_some]
    rw [lastN_append]
    congr 1
    rw [List.append_assoc]
    rfl

/-- `LTRIM key 0 (max-1)` with a positive capacity keeps the first `max`
elements. -/
theorem lrange0_of_pos (l : List α) (max : Int) (h : 1 ≤ max) :
    lrange0 l (max - 1) = l.take max.toNat := by
  unfold lrange0
  simp only [if_neg (by omega : ¬ max - 1 < 0)]
  congr 1
  omega

/-- A hybrid write never flips the backend flags or the cache capacity. -/
theorem hybridAddMessage_fields (embed : String → Option (List ℚ))
    (hm : HybridMemory) (msg : Message) :
    (hybridAddMessage embed hm msg).1.redisOk = hm.redisOk ∧
    (hybridAddMessage embed hm msg).1.supabaseOk = hm.supabaseOk ∧
    (hybridAddMessage embed hm msg).1.maxSessionMessages = hm.maxSessionMessages := by
  unfold hybridAddMessage
  cases hs : hm.supabaseOk <;> cases hr : hm.redisOk <;> simp [hs, hr]

/-- One hybrid write, seen on the Redis list of its own session. -/
theorem hybridAddMessage_cache (embed : String → Option (List ℚ))
    (hm : HybridMemory) (m : Message) (sid : String)
    (hr : hm.redisOk = true) (hmax : 1 ≤ hm.maxSessionMessages)
    (hsid : m.metadata.sessionID = sid) :
    alookup (hybridAddMessage embed hm m).1.cache sid [] =
      (m :: alookup hm.cache sid []).take hm.maxSessionMessages.toNat := by
  unfold hybridAddMessage
  cases hs : hm.supabaseOk <;>
    simp [hs, hr, hsid, lrange0_of_pos _ _ hmax, alookup, afind_aset_self]

/-- Truncating to `n` absorbs under earlier appends. -/
theorem take_append_take (n : Nat) (A B : List α) :
    (A ++ B.take n).take n = (A ++ B).take n := by
  rw [List.take_append_eq_append_take, List.take_append_eq_append_take,
    List.take_take]
  have hmin : min (n - A.length) n = n - A.length := by omega
  rw [hmin]

/-- Folding hybrid writes of one session accumulates the newest
`maxSessionMessages`, newest first, in the Redis list. -/
theorem hybridAddAll_cache (embed : String → Option (List ℚ)) (sid : String)
    (msgs : List Message) (hmsgs : ∀ m ∈ msgs, m.metadata.sessionID = sid) :
    ∀ hm : HybridMemory, hm.redisOk = true → 1 ≤ hm.maxSessionMessages →
      (alookup hm.cache sid []).length ≤ hm.maxSessionMessages.toNat →
      alookup (hybridAddAll embed hm msgs).cache sid [] =
        (msgs.reverse ++ alookup hm.cache sid []).take hm.maxSessionMessages.toNat := by
  induction msgs with
  | nil =>
    intro hm _ _ hlen
    show alookup hm.cache sid [] = _
    rw [List.reverse_nil, List.nil_append, List.take_of_length_le hlen]
  | cons m ms ih =>
    intro hm hr hmax hlen
    have hm1 : m.metadata.sessionID = sid := hmsgs m (by simp)
    obtain ⟨hfr, _, hfm⟩ := hybridAddMessage_fields embed hm m
    have hstep : hybridAddAll embed hm (m :: ms) =
        hybridAddAll embed (hybridAddMessage embed hm m).1 ms := rfl
    have hcache := hybridAddMessage_cache embed hm m sid hr hmax hm1
    rw [hstep,
      ih (fun x hx => hmsgs x (List.mem_cons_of_mem m hx))
        (hybridAddMessage embed hm m).1
        (by rw [hfr]; exact hr)
        (by rw [hfm]; exact hmax)
        (by
          rw [hcache, hfm, List.length_take]
          omega),
      hcache, hfm, take_append_take, List.reverse_cons, List.append_assoc,
      List.singleton_append]

/-- C8: inserting `maxSessionMessages + k` messages (k > 0) of one fresh
session retains exactly the last `maxSessionMessages` inserted, oldest
evicted first, in strict insertion order.  Confirmed for both cache
tiers: the session-only store keeps `msgs.drop k` (chronological), and the
hybrid Redis list keeps the same window newest-first. -/
theorem C8_cache_eviction_fifo (sid : String) (hsid : ¬ sid = "")
    (max : Int) (k : Nat) (hmax : 1 ≤ max) (hk : 0 < k)
    (msgs : List Message) (hmsgs : ∀ m ∈ msgs, m.metadata.sessionID = sid)
    (hlen : msgs.length = max.toNat + k)
    (embed : String → Option (List ℚ)) (db0 : SupabaseDb) :
    alookup (sessionOnlyAddAll
        { maxSessionMessages := max, sessions := [] } msgs).sessions sid [] =
      msgs.drop k ∧
    alookup (hybridAddAll embed
        { supabaseOk := true, redisOk := true, db := db0, cache := [], meta := [],
          maxSessionMessages := max } msgs).cache sid [] =
      (msgs.drop k).reverse := by
  constructor
  · rw [sessionOnlyAddAll_lookup sid hsid msgs hmsgs
      { maxSessionMessages := max, sessions := [] }
      (by change (0 : Int) ≤ max; omega)
      (by simp [alookup, afind])]
    show lastN max.toNat (alookup ([] : List (String × List Message)) sid [] ++ msgs) =
      msgs.drop k
    simp only [alookup, afind, Option.getD_none, List.nil_append]
    show msgs.drop (msgs.length - max.toNat) = msgs.drop k
    congr 1
    omega
  · rw [hybridAddAll_cache embed sid msgs hmsgs
      { supabaseOk := true, redisOk := true, db := db0, cache := [], meta := [],
        maxSessionMessages := max } rfl
      (by change (1 : Int) ≤ max; omega)
      (by simp [alookup, afind])]
    show List.take max.toNat
        (msgs.reverse ++ alookup ([] : List (String × List Message)) sid []) =
      (msgs.drop k).reverse
    simp only [alookup, afind, Option.getD_none, List.append_nil]
    rw [List.reverse_drop]
    congr 1
    omega

/-- The three writes of the C8 witness (capacity 2, overshoot 1). -/
def c8Msgs : List Message :=
  [{ id := "w1", role := "user", content := "a",
     metadata := { sessionID := "s8", userID := "", tokenCount := 1 },
     timestamp := 1, embedding := [] },
   { id := "w2", role := "assistant", content := "b",
     metadata := { sessionID := "s8", userID := "", tokenCount := 1 },
     timestamp := 2, embedding := [] },
   { id := "w3", role := "user", content := "c",
     metadata := { sessionID := "s8", userID := "", tokenCount := 1 },
     timestamp := 3, embedding := [] }]

/-- Witness for C8: capacity 2, three inserts, the first is evicted. -/
theorem C8_cache_eviction_fifo_witness :
    alookup (sessionOnlyAddAll
        { maxSessionMessages := 2, sessions := [] } c8Msgs).sessions "s8" [] =
      c8Msgs.drop 1 ∧
    alookup (hybridAddAll (fun _ => none)
        { supabaseOk := true, redisOk := true,
          db := { agentMessages := [], agentSummaries := [] }, cache := [],
          meta := [], maxSessionMessages := 2 } c8Msgs).cache "s8" [] =
      (c8Msgs.drop 1).reverse :=
  C8_cache_eviction_fifo "s8" (by decide) 2 1 (by decide) (by decide) c8Msgs
    (by decide) (by decide) (fun _ => none)
    { agentMessages := [], agentSummaries := [] }

/-! ### Claim C4 -/

/-- The repopulation loop pushes from the last slice element down to the
first, so the rebuilt Redis list is the input itself. -/
theorem foldl_cons_acc (l acc : List α) :
    l.foldl (fun a m => m :: a) acc = l.reverse ++ acc := by
  induction l generalizing acc with
  | nil => simp
  | cons x xs ih => simp [List.foldl_cons, ih, List.reverse_cons]

/-- `repopulateRedisCache` stores exactly the fallback result. -/
theorem repopulateRedisCache_eq (messages : List Message) :
    repopulateRedisCache messages = messages := by
  unfold repopulateRedisCache
  rw [foldl_cons_acc, List.append_nil, List.reverse_reverse]

/-- `LRANGE` of an empty Redis list is empty. -/
theorem lrange0_nil (stop : Int) : lrange0 ([] : List α) stop = [] := by
  unfold lrange0
  split <;> simp

/-- Scanning rows in descending `created_at` order gives messages in
descending timestamp order. -/
theorem pairwise_map_rowToMessage (rows : List AgentMessageRow)
    (h : List.Pairwise (keyRel (fun r : AgentMessageRow => r.createdAt)) rows) :
    List.Pairwise (fun a b => b.timestamp ≤ a.timestamp) (rows.map rowToMessage) :=
  List.Pairwise.map rowToMessage (fun _ _ hab => hab) h

/-- The durable read path returns chronologically ordered messages. -/
theorem supabaseGetRecentMessages_chronological (db : SupabaseDb)
    (sid : String) (limit : Int) :
    List.Pairwise (fun a b => a.timestamp ≤ b.timestamp)
      (supabaseGetRecentMessages db sid limit) := by
  unfold supabaseGetRecentMessages
  rw [List.pairwise_reverse]
  exact pairwise_map_rowToMessage _
    (List.Pairwise.sublist (List.take_sublist _ _)
      (List.sorted_insertionSort (keyRel fun r : AgentMessageRow => r.createdAt) _))

/-- On a cache miss or an unavailable cache tier, the read is answered by
the durable tier with the (re-defaulted) limit, and does not fail. -/
theorem hybridGetRecent_miss_ok (hm : HybridMemory) (sid : String)
    (limit : Int)
    (hmiss : hm.redisOk = false ∨ alookup hm.cache sid [] = [])
    (hdb : hm.supabaseOk = true) :
    (hybridGetRecentMessages hm sid limit).1 =
      .ok (supabaseGetRecentMessages hm.db sid
        (if limit ≤ 0 then hm.maxSessionMessages else limit)) := by
  unfold hybridGetRecentMessages
  rcases hmiss with hr | hc
  · simp [hr, hdb]
  · simp [hc, lrange0_nil, hdb]

/-- C4: on a cache miss or with the cache tier unavailable,
`GetRecentMessages` answers from the durable tier: the call does not fail,
the result is the durable query result in chronological order, and (when
Redis is reachable) the cache is repopulated with exactly those messages.
Confirmed. -/
theorem C4_hybrid_getRecent_fallback (hm : HybridMemory) (sid : String)
    (limit : Int)
    (hmiss : hm.redisOk = false ∨ alookup hm.cache sid [] = [])
    (hdb : hm.supabaseOk = true) :
    (hybridGetRecentMessages hm sid limit).1 =
      .ok (supabaseGetRecentMessages hm.db sid
        (if limit ≤ 0 then hm.maxSessionMessages else limit)) ∧
    List.Pairwise (fun a b => a.timestamp ≤ b.timestamp)
      (supabaseGetRecentMessages hm.db sid
        (if limit ≤ 0 then hm.maxSessionMessages else limit)) ∧
    (hm.redisOk = true →
      alookup (hybridGetRecentMessages hm sid limit).2.cache sid [] =
        supabaseGetRecentMessages hm.db sid
          (if limit ≤ 0 then hm.maxSessionMessages else limit)) := by
  refine ⟨hybridGetRecent_miss_ok hm sid limit hmiss hdb,
    supabaseGetRecentMessages_chronological _ _ _, ?_⟩
  intro hr
  unfold hybridGetRecentMessages
  rcases hmiss with hr2 | hc
  · simp [hr] at hr2
  · simp only [hc, lrange0_nil, hdb, hr, repopulateRedisCache_eq,
      List.length_nil, gt_iff_lt, lt_self_iff_false, if_false, if_true]
    simp [alookup, afind_aset_self]

/-- Rows of the C4 witness store (one session, two messages). -/
def c4Rows : List AgentMessageRow :=
  [{ messageId := "m2", sessionId := "s4", userId := "", role := "assistant",
     content := "second", metadata := { sessionID := "s4", userID := "", tokenCount := 1 },
     embedding := [], createdAt := 2 },
   { messageId := "m1", sessionId := "s4", userId := "", role := "user",
     content := "first", metadata := { sessionID := "s4", userID := "", tokenCount := 1 },
     embedding := [], createdAt := 1 }]

/-- A hybrid store with the cache tier forced unavailable. -/
def c4State : HybridMemory :=
  { supabaseOk := true, redisOk := false,
    db := { agentMessages := c4Rows, agentSummaries := [] },
    cache := [], meta := [], maxSessionMessages := 50 }

/-- Witness for C4 with the cache tier forced unavailable. -/
theorem C4_hybrid_getRecent_fallback_witness :
    (hybridGetRecentMessages c4State "s4" 10).1 =
      .ok (supabaseGetRecentMessages c4State.db "s4"
        (if (10 : Int) ≤ 0 then c4State.maxSessionMessages else 10)) ∧
    List.Pairwise (fun a b => a.timestamp ≤ b.timestamp)
      (supabaseGetRecentMessages c4State.db "s4"
        (if (10 : Int) ≤ 0 then c4State.maxSessionMessages else 10)) ∧
    (c4State.redisOk = true →
      alookup (hybridGetRecentMessages c4State "s4" 10).2.cache "s4" [] =
        supabaseGetRecentMessages c4State.db "s4"
          (if (10 : Int) ≤ 0 then c4State.maxSessionMessages else 10)) :=
  C4_hybrid_getRecent_fallback c4State "s4" 10 (Or.inl rfl) rfl

/-! ### Claim C7 -/

/-- An absent key is not found. -/
theorem amem_false_afind (m : List (String × α)) (k : String)
    (h : amem m k = false) : afind m k = none := by
  induction m with
  | nil => rfl
  | cons p rest ih =>
    obtain ⟨k2, v⟩ := p
    simp only [amem, Bool.or_eq_false_iff, decide_eq_false_iff_not] at h
    simp [afind, h.1, ih h.2]

/-- Length of the durable recent-messages query for a positive limit. -/
theorem supabaseGetRecentMessages_length (db : SupabaseDb) (sid : String)
    (limit : Int) (h : 1 ≤ limit) :
    (supabaseGetRecentMessages db sid limit).length =
      min limit.toNat
        (db.agentMessages.filter (fun r => r.sessionId = sid)).length := by
  unfold supabaseGetRecentMessages
  simp only [if_neg (by omega : ¬ limit ≤ 0)]
  rw [List.length_reverse, List.length_map, List.length_take]
  congr 1
  exact List.length_insertionSort _ _

/-- Length of the session-only recent-messages read for a positive limit. -/
theorem sessionOnlyGetRecentMessages_length (sm : SessionOnlyMemory)
    (sid : String) (limit : Int) (h : 1 ≤ limit) :
    (sessionOnlyGetRecentMessages sm sid limit).map List.length =
      some (min limit.toNat (alookup sm.sessions sid []).length) := by
  unfold sessionOnlyGetRecentMessages
  by_cases hmem : amem sm.sessions sid = false
  · rw [if_pos hmem]
    have hnone : afind sm.sessions sid = none := amem_false_afind _ _ hmem
    simp [alookup, hnone]
  · rw [if_neg hmem]
    dsimp only
    by_cases hlen : ((alookup sm.sessions sid []).length : Int) > limit
    · rw [if_pos hlen, if_neg (by omega)]
      simp only [Option.map, Option.some.injEq]
      rw [List.length_drop]
      omega
    · rw [if_neg hlen, if_neg (by omega)]
      simp only [Option.map, Option.some.injEq]
      rw [List.length_drop]
      omega

/-- C7 amended: for a positive `limit`,
`len(GetRecentMessages(session, limit)) = min(limit, totalMessagesInSession)`
holds in persistent mode, in session-only mode, and in hybrid mode for
reads served from the durable tier (cache miss or cache tier down).  The
claim as stated fails for `limit ≤ 0` (the persistent reader re-defaults
the limit to 50, see the counterexample); on the hybrid cache-hit path the
result is additionally capped by the cache capacity. -/
theorem C7_getRecent_length_eq_min (db : SupabaseDb) (sm : SessionOnlyMemory)
    (hm : HybridMemory) (sid : String) (limit : Int) (h : 1 ≤ limit)
    (hmiss : hm.redisOk = false ∨ alookup hm.cache sid [] = [])
    (hdb : hm.supabaseOk = true) :
    (supabaseGetRecentMessages db sid limit).length =
      min limit.toNat
        (db.agentMessages.filter (fun r => r.sessionId = sid)).length ∧
    (sessionOnlyGetRecentMessages sm sid limit).map List.length =
      some (min limit.toNat (alookup sm.sessions sid []).length) ∧
    (hybridGetRecentMessages hm sid limit).1.toOption.map List.length =
      some (min limit.toNat
        (hm.db.agentMessages.filter (fun r => r.sessionId = sid)).length) := by
  refine ⟨supabaseGetRecentMessages_length db sid limit h,
    sessionOnlyGetRecentMessages_length sm sid limit h, ?_⟩
  rw [hybridGetRecent_miss_ok hm sid limit hmiss hdb]
  simp only [if_neg (by omega : ¬ limit ≤ 0), Except.toOption, Option.map]
  exact congrArg some (supabaseGetRecentMessages_length hm.db sid limit h)

/-- One-row table of the C7 counterexample. -/
def c7Db : SupabaseDb :=
  { agentMessages :=
      [{ messageId := "m1", sessionId := "s1", userId := "", role := "user",
         content := "only", metadata := { sessionID := "s1", userID := "", tokenCount := 1 },
         embedding := [], createdAt := 1 }],
    agentSummaries := [] }

/-- C7 counterexample: at `limit = 0` the claim demands an empty result
(`min(0, 1) = 0`), but the persistent reader re-defaults a non-positive
limit to 50 (supabase.go lines 162-164) and returns the stored message. -/
theorem C7_counterexample_zero_limit :
    ¬ ((supabaseGetRecentMessages c7Db "s1" 0).length =
      min ((0 : Int)).toNat
        (c7Db.agentMessages.filter (fun r => r.sessionId = "s1")).length) := by
  decide

/-- The empty session-only store of the C7 witness. -/
def c7Sm : SessionOnlyMemory :=
  { maxSessionMessages := 50, sessions := [] }

/-- The cache-unavailable hybrid store of the C7 witness. -/
def c7Hm : HybridMemory :=
  { supabaseOk := true, redisOk := false, db := c7Db, cache := [],
    meta := [], maxSessionMessages := 50 }

/-- Witness for C7 amended: limit 1 over a one-row table, an empty
session-only store and a cache-unavailable hybrid store. -/
theorem C7_getRecent_length_eq_min_witness :
    (supabaseGetRecentMessages c7Db "s1" 1).length =
      min (1 : Int).toNat
        (c7Db.agentMessages.filter (fun r => r.sessionId = "s1")).length ∧
    (sessionOnlyGetRecentMessages c7Sm "s1" 1).map List.length =
      some (min (1 : Int).toNat (alookup c7Sm.sessions "s1" []).length) ∧
    (hybridGetRecentMessages c7Hm "s1" 1).1.toOption.map List.length =
      some (min (1 : Int).toNat
        (c7Hm.db.agentMessages.filter (fun r => r.sessionId = "s1")).length) :=
  C7_getRecent_length_eq_min c7Db c7Sm c7Hm "s1" 1 (by decide) (Or.inl rfl) rfl

/-! ### Claim C10 -/

/-- The float literal `0.8` is at most `1.0`. -/
theorem mkRat45_le_one : (mkRat 4 5 : ℚ) ≤ 1 := by
  rw [Rat.mkRat_eq_div]
  norm_num

/-- Membership in the unsorted hit list of the session-only search. -/
theorem mem_sessionOnlySearchHits (sm : SessionOnlyMemory) (query : String)
    (threshold : ℚ) (r : SearchResult) :
    r ∈ sessionOnlySearchHits sm query threshold ↔
      r.message ∈ sessionOnlyAllMessages sm ∧
      contains r.message.content query = true ∧
      threshold ≤ r.score ∧
      r.score = calculateSimpleScore r.message.content query ∧
      r.distance = 0 := by
  unfold sessionOnlySearchHits
  rw [List.mem_filterMap]
  constructor
  · rintro ⟨msg, hmsg, hf⟩
    dsimp only at hf
    by_cases hc : contains msg.content query
    · rw [if_pos hc] at hf
      by_cases ht : threshold ≤ calculateSimpleScore msg.content query
      · rw [if_pos ht] at hf
        cases hf
        exact ⟨hmsg, hc, ht, rfl, rfl⟩
      · rw [if_neg ht] at hf
        cases hf
    · rw [if_neg hc] at hf
      cases hf
  · rintro ⟨hmem, hc, ht, hs, hd⟩
    refine ⟨r.message, hmem, ?_⟩
    dsimp only
    rw [if_pos hc, if_pos (by rw [← hs]; exact ht)]
    obtain ⟨mr, sr, dr⟩ := r
    simp only at hs hd
    rw [hs, hd]

/-- For a positive limit the session-only search cannot panic: it is the
truncated descending-sorted hit list. -/
theorem sessionOnlySearch_eq (sm : SessionOnlyMemory) (query : String)
    (limit : Int) (threshold : ℚ) (h : 0 ≤ limit) :
    sessionOnlySearch sm query limit threshold =
      some ((sortDescBy (fun r => r.score)
        (sessionOnlySearchHits sm query threshold)).take limit.toNat) := by
  unfold sessionOnlySearch
  dsimp only
  split
  · rw [if_neg (by omega)]
  · next hle =>
    rw [List.take_of_length_le (by omega)]

/-- C10: in session-only mode, for a stored message and a non-empty query
(with a threshold at most 0.8 and a limit large enough not to truncate),
`Search` includes the message — scored 0.8, or 1.0 on exact equality —
exactly when the content is non-empty and equal to or strictly longer
than the query: a pure length comparison, not an occurrence check.
Confirmed: this is precisely the `contains` helper the search filters by. -/
theorem C10_sessionOnly_search_length_match (sm : SessionOnlyMemory)
    (msg : Message) (query : String) (limit : Int) (threshold : ℚ)
    (hq : 0 < query.length) (hth : threshold ≤ mkRat 4 5)
    (hmem : msg ∈ sessionOnlyAllMessages sm)
    (hlim : ((sessionOnlySearchHits sm query threshold).length : Int) ≤ limit) :
    (sessionOnlySearch sm query limit threshold).map
      (fun res => res.any (fun r => r.message == msg &&
        r.score == (if msg.content == query then (1 : ℚ) else mkRat 4 5))) =
      some (decide (0 < msg.content.length) &&
        (msg.content == query || decide (query.length < msg.content.length))) := by
  have hlim2 : (0 : Int) ≤ limit := by
    have h0 : (0 : Int) ≤ ((sessionOnlySearchHits sm query threshold).length : Int) := by
      positivity
    omega
  rw [sessionOnlySearch_eq sm query limit threshold hlim2]
  simp only [Option.map, Option.some.injEq]
  rw [Bool.eq_iff_iff, List.any_eq_true]
  constructor
  · rintro ⟨r, hr, hpr⟩
    have hrmem : r ∈ sessionOnlySearchHits sm query threshold :=
      List.mem_insertionSort (keyRel fun x : SearchResult => x.score)
        |>.mp (List.mem_of_mem_take hr)
    obtain ⟨-, hc, -, -, -⟩ :=
      (mem_sessionOnlySearchHits sm query threshold r).mp hrmem
    have hrm2 : r.message = msg := by
      simp only [Bool.and_eq_true, beq_iff_eq] at hpr
      exact hpr.1
    rw [hrm2] at hc
    unfold contains at hc
    simp only [Bool.and_eq_true, decide_eq_true_eq, Bool.or_eq_true,
      beq_iff_eq] at hc
    simp only [Bool.and_eq_true, decide_eq_true_eq, Bool.or_eq_true,
      beq_iff_eq]
    exact ⟨hc.1.1, hc.2⟩
  · intro hb
    simp only [Bool.and_eq_true, decide_eq_true_eq, Bool.or_eq_true,
      beq_iff_eq] at hb
    have hc : contains msg.content query = true := by
      unfold contains
      simp only [Bool.and_eq_true, decide_eq_true_eq, Bool.or_eq_true,
        beq_iff_eq]
      exact ⟨⟨hb.1, hq⟩, hb.2⟩
    have hscore : calculateSimpleScore msg.content query =
        (if msg.content == query then (1 : ℚ) else mkRat 4 5) := by
      unfold calculateSimpleScore
      by_cases he : msg.content == query
      · rw [if_pos he, if_pos he]
      · rw [if_neg he, if_pos hc, if_neg he]
    have hts : threshold ≤ calculateSimpleScore msg.content query := by
      rw [hscore]
      split
      · exact le_trans hth mkRat45_le_one
      · exact hth
    have hhit : (⟨msg, calculateSimpleScore msg.content query, 0⟩ : SearchResult) ∈
        sessionOnlySearchHits sm query threshold := by
      rw [mem_sessionOnlySearchHits]
      exact ⟨hmem, hc, hts, rfl, rfl⟩
    refine ⟨⟨msg, calculateSimpleScore msg.content query, 0⟩, ?_, ?_⟩
    · have hsortlen : ((sortDescBy (fun r => r.score)
          (sessionOnlySearchHits sm query threshold)).length : Int) ≤ limit := by
        rw [show (sortDescBy (fun r : SearchResult => r.score)
            (sessionOnlySearchHits sm query threshold)).length =
          (sessionOnlySearchHits sm query threshold).length from
            List.length_insertionSort _ _]
        exact hlim
      rw [List.take_of_length_le (by omega)]
      exact (List.mem_insertionSort (keyRel fun x : SearchResult => x.score)).mpr hhit
    · simp [hscore]

/-- The stored message of the C10 witness. -/
def c10Msg : Message :=
  { id := "m10", role := "user", content := "hello",
    metadata := { sessionID := "s10", userID := "", tokenCount := 1 },
    timestamp := 1, embedding := [] }

/-- The one-message store of the C10 witness. -/
def c10Store : SessionOnlyMemory :=
  { maxSessionMessages := 50, sessions := [("s10", [c10Msg])] }

/-- Witness for C10: content strictly longer than the query, so the
message is returned with score 0.8 although the query never occurs in it. -/
theorem C10_sessionOnly_search_length_match_witness :
    (sessionOnlySearch c10Store "hi" 10 (mkRat 1 2)).map
      (fun res => res.any (fun r => r.message == c10Msg &&
        r.score == (if c10Msg.content == "hi" then (1 : ℚ) else mkRat 4 5))) =
      some (decide (0 < c10Msg.content.length) &&
        (c10Msg.content == "hi" || decide ("hi".length < c10Msg.content.length))) :=
  C10_sessionOnly_search_length_match c10Store c10Msg "hi" 10 (mkRat 1 2)
    (by decide) (by decide) (by decide) (by decide)

/-! ### Claim C5 -/

/-- The float literal `0.7` is nonnegative. -/
theorem mkRat710_nonneg : (0 : ℚ) ≤ mkRat 7 10 := by
  rw [Rat.mkRat_eq_div]
  norm_num

/-- Older of the two tied messages of the C5 counterexample. -/
def c5Msg1 : Message :=
  { id := "m1", role := "user", content := "hit",
    metadata := { sessionID := "s5", userID := "", tokenCount := 1 },
    timestamp := 1, embedding := [] }

/-- Newer tied message, stored after the older one. -/
def c5Msg2 : Message :=
  { c5Msg1 with id := "m2", timestamp := 2 }

/-- Store holding the two tied messages in insertion order. -/
def c5Store : SessionOnlyMemory :=
  { maxSessionMessages := 50, sessions := [("s5", [c5Msg1, c5Msg2])] }

/-- C5 counterexample: both stored messages match the query with the same
score 0.8, and `Search` returns the older one first — the comparator of
`sort.Slice` looks only at scores (supabase.go lines 554-556), so ties
keep store order instead of the claimed most-recent-first order. -/
theorem C5_counterexample_ties_not_by_timestamp :
    sessionOnlySearch c5Store "q" 10 (mkRat 1 2) =
      some [⟨c5Msg1, mkRat 4 5, 0⟩, ⟨c5Msg2, mkRat 4 5, 0⟩] ∧
    c5Msg1.timestamp < c5Msg2.timestamp := by
  decide

/-- For a positive limit the persistent vector search is the truncated
descending-sorted filter of the table. -/
theorem supabaseSearch_eq (dist : List ℚ → List ℚ → ℚ) (db : SupabaseDb)
    (q : List ℚ) (limit : Int) (threshold : ℚ) (h : 1 ≤ limit) :
    supabaseSearchWithEmbedding dist db q limit threshold =
      ((sortDescBy (fun r => 1 - dist r.embedding q)
        ((db.agentMessages.filter (fun r => !r.embedding.isEmpty)).filter
          (fun r => (if threshold ≤ 0 then mkRat 7 10 else threshold) <
            1 - dist r.embedding q))).take limit.toNat).map
        (fun r =>
          { message := rowToMessage r,
            score := 1 - dist r.embedding q,
            distance := dist r.embedding q }) := by
  unfold supabaseSearchWithEmbedding
  dsimp only
  rw [if_neg (by omega : ¬ limit ≤ 0)]

/-- Rows sorted by descending score map to results sorted by descending
score. -/
theorem pairwise_map_toSearchResult (dist : List ℚ → List ℚ → ℚ)
    (q : List ℚ) (rows : List AgentMessageRow)
    (h : List.Pairwise (keyRel (fun r : AgentMessageRow => 1 - dist r.embedding q)) rows) :
    List.Pairwise (fun a b => b.score ≤ a.score)
      (rows.map (fun r =>
        ({ message := rowToMessage r,
           score := 1 - dist r.embedding q,
           distance := dist r.embedding q } : SearchResult))) :=
  List.Pairwise.map _ (fun _ _ hab => hab) h

/-- C5 amended: every returned result scores at least the requested
threshold (strictly above the effective threshold in persistent mode),
results are sorted by score descending, and at most `limit` (positive)
results are returned — in both search implementations.  The claimed
most-recent-first tie order does not hold (see the counterexample): ties
keep the store scan order. -/
theorem C5_search_scores_sorted_limited (sm : SessionOnlyMemory)
    (query : String) (dist : List ℚ → List ℚ → ℚ) (db : SupabaseDb)
    (q : List ℚ) (limit : Int) (threshold : ℚ) (h : 1 ≤ limit) :
    (sessionOnlySearch sm query limit threshold).isSome = true ∧
    ((sessionOnlySearch sm query limit threshold).getD []).all
      (fun r => decide (threshold ≤ r.score)) = true ∧
    List.Pairwise (fun a b => b.score ≤ a.score)
      ((sessionOnlySearch sm query limit threshold).getD []) ∧
    ((sessionOnlySearch sm query limit threshold).getD []).length ≤ limit.toNat ∧
    (supabaseSearchWithEmbedding dist db q limit threshold).all
      (fun r => decide (threshold ≤ r.score)) = true ∧
    List.Pairwise (fun a b => b.score ≤ a.score)
      (supabaseSearchWithEmbedding dist db q limit threshold) ∧
    (supabaseSearchWithEmbedding dist db q limit threshold).length ≤ limit.toNat := by
  rw [sessionOnlySearch_eq sm query limit threshold (by omega),
    supabaseSearch_eq dist db q limit threshold h]
  refine ⟨rfl, ?_, ?_, ?_, ?_, ?_, ?_⟩
  · rw [Option.getD_some, List.all_eq_true]
    intro r hr
    have hrmem : r ∈ sessionOnlySearchHits sm query threshold :=
      (List.mem_insertionSort (keyRel fun x : SearchResult => x.score)).mp
        (List.mem_of_mem_take hr)
    obtain ⟨-, -, ht, -, -⟩ :=
      (mem_sessionOnlySearchHits sm query threshold r).mp hrmem
    exact decide_eq_true ht
  · rw [Option.getD_some]
    exact List.Pairwise.sublist (List.take_sublist _ _)
      (List.sorted_insertionSort (keyRel fun x : SearchResult => x.score) _)
  · rw [Option.getD_some, List.length_take]
    exact Nat.min_le_left _ _
  · rw [List.all_eq_true]
    intro r hr
    obtain ⟨row, hrow, hr2⟩ := List.mem_map.mp hr
    have hrowmem : row ∈ (db.agentMessages.filter
        (fun r => !r.embedding.isEmpty)).filter
          (fun r => (if threshold ≤ 0 then mkRat 7 10 else threshold) <
            1 - dist r.embedding q) :=
      (List.mem_insertionSort
        (keyRel fun x : AgentMessageRow => 1 - dist x.embedding q)).mp
        (List.mem_of_mem_take hrow)
    have hp := List.of_mem_filter hrowmem
    simp only [decide_eq_true_eq] at hp
    have hth : threshold ≤ (if threshold ≤ 0 then mkRat 7 10 else threshold) := by
      split
      · next hle => exact le_trans hle mkRat710_nonneg
      · exact le_refl threshold
    have hscore : threshold ≤ 1 - dist row.embedding q :=
      le_of_lt (lt_of_le_of_lt hth hp)
    rw [← hr2]
    exact decide_eq_true hscore
  · exact pairwise_map_toSearchResult dist q _
      (List.Pairwise.sublist (List.take_sublist _ _)
        (List.sorted_insertionSort
          (keyRel fun x : AgentMessageRow => 1 - dist x.embedding q) _))
  · rw [List.length_map, List.length_take]
    exact Nat.min_le_left _ _

/-- One-row searchable table for the C5 witness. -/
def c5Db : SupabaseDb :=
  { agentMessages :=
      [{ messageId := "m1", sessionId := "s5", userId := "", role := "user",
         content := "hit", metadata := { sessionID := "s5", userID := "", tokenCount := 1 },
         embedding := [1], createdAt := 1 }],
    agentSummaries := [] }

/-- Witness for C5 amended at concrete stores, query and distance. -/
theorem C5_search_scores_sorted_limited_witness :
    (sessionOnlySearch c5Store "q" 2 (mkRat 1 2)).isSome = true ∧
    ((sessionOnlySearch c5Store "q" 2 (mkRat 1 2)).getD []).all
      (fun r => decide (mkRat 1 2 ≤ r.score)) = true ∧
    List.Pairwise (fun a b => b.score ≤ a.score)
      ((sessionOnlySearch c5Store "q" 2 (mkRat 1 2)).getD []) ∧
    ((sessionOnlySearch c5Store "q" 2 (mkRat 1 2)).getD []).length ≤ (2 : Int).toNat ∧
    (supabaseSearchWithEmbedding (fun _ _ => 0) c5Db [1] 2 (mkRat 1 2)).all
      (fun r => decide (mkRat 1 2 ≤ r.score)) = true ∧
    List.Pairwise (fun a b => b.score ≤ a.score)
      (supabaseSearchWithEmbedding (fun _ _ => 0) c5Db [1] 2 (mkRat 1 2)) ∧
    (supabaseSearchWithEmbedding (fun _ _ => 0) c5Db [1] 2 (mkRat 1 2)).length ≤
      (2 : Int).toNat :=
  C5_search_scores_sorted_limited c5Store "q" (fun _ _ => 0) c5Db [1] 2
    (mkRat 1 2) (by decide)

/-! ### Claim C6 -/

/-- One-row searchable table for the C6 scenarios. -/
def c6Db : SupabaseDb :=
  { agentMessages :=
      [{ messageId := "m1", sessionId := "s6", userId := "", role := "user",
         content := "hit", metadata := { sessionID := "s6", userID := "", tokenCount := 1 },
         embedding := [1], createdAt := 1 }],
    agentSummaries := [] }

/-- C6 counterexample: with `T1 = 0 < T2 = 1/2` the persistent search
re-defaults the non-positive `T1` to 0.7 (supabase.go lines 242-244), so a
row scoring 0.6 appears under the higher requested threshold `T2` but not
under the lower `T1` — the result set grows instead of shrinking, refuting
the claimed subset relation. -/
theorem C6_counterexample_default_threshold :
    (0 : ℚ) < mkRat 1 2 ∧
    ¬ (supabaseSearchWithEmbedding (fun _ _ => mkRat 2 5) c6Db [1] 10 (mkRat 1 2) ⊆
        supabaseSearchWithEmbedding (fun _ _ => mkRat 2 5) c6Db [1] 10 0) := by
  have h1 : supabaseSearchWithEmbedding (fun _ _ => mkRat 2 5) c6Db [1] 10 0 = [] := by
    unfold supabaseSearchWithEmbedding c6Db
    norm_num [Rat.mkRat_eq_div, List.filter, sortDescBy, List.insertionSort]
  have h2 : supabaseSearchWithEmbedding (fun _ _ => mkRat 2 5) c6Db [1] 10
      (mkRat 1 2) ≠ [] := by
    unfold supabaseSearchWithEmbedding c6Db
    norm_num [Rat.mkRat_eq_div, List.filter, sortDescBy, List.insertionSort,
      List.orderedInsert]
  refine ⟨by norm_num [Rat.mkRat_eq_div], fun hsub => ?_⟩
  rw [h1] at hsub
  exact h2 (List.subset_nil.mp hsub)

/-- Core monotonicity of the filter-sort-truncate pipeline: a stronger
upward-closed filter yields a sublist of the weaker one. -/
theorem searchPipeline_sublist (key : α → ℚ) (rows : List α)
    (p1 p2 : α → Bool) (himp : ∀ a, p2 a = true → p1 a = true)
    (hmono2 : ∀ a b, key b ≤ key a → p2 b = true → p2 a = true) (n : Nat) :
    List.Sublist ((sortDescBy key (rows.filter p2)).take n)
      ((sortDescBy key (rows.filter p1)).take n) := by
  rw [filter_filter_of_imp p2 p1 himp rows,
    ← filter_sortDescBy key p2 hmono2 (rows.filter p1)]
  obtain ⟨m, hm⟩ := filter_eq_take_of_sorted key p2 hmono2
    (sortDescBy key (rows.filter p1))
    (List.sorted_insertionSort (keyRel key) (rows.filter p1))
  rw [hm, List.take_take]
  have h1 : (sortDescBy key (rows.filter p1)).take (min n m) =
      ((sortDescBy key (rows.filter p1)).take n).take (min n m) := by
    rw [List.take_take]
    congr 1
    omega
  rw [h1]
  exact List.take_sublist _ _

/-- C6 amended: for positive thresholds `0 < T1 < T2` and the same query,
distance operator and limit, the persistent search result under `T2` is a
subset (in fact a sublist) of the result under `T1`.  As stated — for all
`T1 < T2` — the claim fails, because a non-positive `T1` is re-defaulted
to 0.7 (see the counterexample). -/
theorem C6_threshold_monotone (dist : List ℚ → List ℚ → ℚ) (db : SupabaseDb)
    (q : List ℚ) (limit : Int) (T1 T2 : ℚ) (h0 : 0 < T1) (h12 : T1 < T2) :
    supabaseSearchWithEmbedding dist db q limit T2 ⊆
      supabaseSearchWithEmbedding dist db q limit T1 := by
  unfold supabaseSearchWithEmbedding
  dsimp only
  rw [if_neg (by exact not_le.mpr h0 : ¬ T1 ≤ 0),
    if_neg (by exact not_le.mpr (lt_trans h0 h12) : ¬ T2 ≤ 0)]
  refine List.Sublist.subset (List.Sublist.map _ ?_)
  refine searchPipeline_sublist (fun r : AgentMessageRow => 1 - dist r.embedding q)
    _ _ _ (fun a ha => ?_) (fun a b hab ha => ?_) _
  · simp only [decide_eq_true_eq] at ha ⊢
    exact lt_trans h12 ha
  · simp only [decide_eq_true_eq] at ha ⊢
    exact lt_of_lt_of_le ha hab

/-- Witness for C6 amended at concrete positive thresholds. -/
theorem C6_threshold_monotone_witness :
    supabaseSearchWithEmbedding (fun _ _ => 0) c6Db [1] 10 1 ⊆
      supabaseSearchWithEmbedding (fun _ _ => 0) c6Db [1] 10 (mkRat 1 2) :=
  C6_threshold_monotone (fun _ _ => 0) c6Db [1] 10 (mkRat 1 2) 1
    (by decide) (by decide)
